import Mathlib

/-!
Verification development for the `virtcap` firmware kernel
(`src/software/firmware/pru0-shepherd-fw/virtcap.c`).

The C code works on `uint32_t` (and `int32_t` bit patterns); we embed it
shallowly over `Nat`, writing `% 2^32` wherever the C arithmetic wraps.
Signed quantities (`int32_t`) are represented by their two's-complement bit
pattern as a `Nat < 2^32`; all the mixed signed/unsigned arithmetic in the
source reduces to arithmetic on bit patterns mod `2^32`, which is what we
model.  Division by zero is undefined behaviour in C; the fallible
operations therefore return `Option`, with `none` exactly where the source
would divide by zero.

The settings struct `VirtCapNoFpSettings` and the `TRUE`/`FALSE` macros are
declared in `virtcap.h`, which is not part of the tree.  Modelled from the
spec: every settings field is a 32-bit unsigned integer carrying the
physical/logic value named in spec section 3, `TRUE`/`FALSE` are the booleans,
and the callback takes one boolean; this matches every use in `virtcap.c`.
-/

/-- `2^32`, the modulus of the C `uint32_t` arithmetic. -/
def U32M : Nat := 4294967296

/-- `voltage_mv_to_logic` from virtcap.c: `voltage * 32 << SHIFT_VOLT`
(`SHIFT_VOLT = 13`), in `uint32_t` arithmetic. -/
def voltage_mv_to_logic (voltage : Nat) : Nat :=
  voltage * 32 % U32M * 2 ^ 13 % U32M

/-- `current_ua_to_logic` from virtcap.c: `current * 3216 / 1000`,
in `uint32_t` arithmetic (truncating division). -/
def current_ua_to_logic (current : Nat) : Nat :=
  current * 3216 % U32M / 1000

/-- First loop of `SquareRootRounded`:
`while (one > op) { one >>= 2; }`. -/
def shrinkOne (op one : Nat) : Nat :=
  if h : op < one then shrinkOne op (one / 4) else one
termination_by one
decreasing_by
  exact Nat.div_lt_self (Nat.lt_of_le_of_lt (Nat.zero_le op) h) (by omega)

/-- Main loop of `SquareRootRounded`:
`while (one != 0) { if (op >= res + one) { op -= res + one; res += 2*one; }
res >>= 1; one >>= 2; }`.  Returns the final `(op, res)`.  The two sums are
computed in `uint32_t`, hence the `% U32M`. -/
def sqrtLoop (op res one : Nat) : Nat × Nat :=
  if h : one = 0 then (op, res)
  else
    let t := (res + one) % U32M
    if t ≤ op then
      sqrtLoop ((op + U32M - t) % U32M) ((res + 2 * one % U32M) % U32M / 2) (one / 4)
    else
      sqrtLoop op (res / 2) (one / 4)
termination_by one
decreasing_by
  all_goals exact Nat.div_lt_self (Nat.pos_of_ne_zero h) (by omega)

/-- `SquareRootRounded` from virtcap.c: digit-by-digit integer square root
of a `uint32_t`, with arithmetic rounding (`if (op > res) res++`). -/
def SquareRootRounded (a_nInput : Nat) : Nat :=
  let one := shrinkOne a_nInput (2 ^ 30)
  let p := sqrtLoop a_nInput 0 one
  if p.2 < p.1 then p.2 + 1 else p.2

/-- The settings struct declared in `virtcap.h` (not in the tree).
Modelled from the spec: all fields are 32-bit unsigned integers; the update
arithmetic in virtcap.c reads them as `uint32_t` values. -/
structure VirtCapNoFpSettings where
  upper_threshold_voltage : Nat
  lower_threshold_voltage : Nat
  kMaxCapVoltage : Nat
  kMinCapVoltage : Nat
  kInitCapVoltage : Nat
  kDcoutputVoltage : Nat
  kLeakageCurrent : Nat
  kOnTimeLeakageCurrent : Nat
  capacitance_uF : Nat
  kOutputCap_uF : Nat
  kConverterEfficiency : Nat
  sample_period_us : Nat
  kDiscretize : Nat
deriving DecidableEq

/-- The global state of virtcap.c bundled into one record: the stored
(converted) `settings`, the stored `callback` pointer (abstracted as a `Nat`
reference), the derived constants `kScaleInput` and `outputcap_scale_factor`,
and the working variables `cap_voltage`, `is_outputting`, `is_enabled`,
`discretize_cntr`. -/
structure VirtcapState where
  settings : VirtCapNoFpSettings
  callback_ref : Nat
  kScaleInput : Nat
  outputcap_scale_factor : Nat
  cap_voltage : Nat
  is_outputting : Bool
  is_enabled : Bool
  discretize_cntr : Nat
deriving DecidableEq

/-- `virtcap_init` from virtcap.c: stores settings and callback, converts the
voltage/current fields to logic units in place, computes
`outputcap_scale_factor = SquareRootRounded((capacitance_uF - kOutputCap_uF)
* 1024 * 1024 / capacitance_uF)`, seeds the working state and sets
`kScaleInput = 102911`.  Returns `none` when `capacitance_uF` is zero, where
the C code would divide by zero. -/
def virtcap_init (settings_arg : VirtCapNoFpSettings) (callback_arg : Nat) :
    Option VirtcapState :=
  if settings_arg.capacitance_uF % U32M = 0 then none
  else
    let conv : VirtCapNoFpSettings :=
      { settings_arg with
        upper_threshold_voltage := voltage_mv_to_logic settings_arg.upper_threshold_voltage
        lower_threshold_voltage := voltage_mv_to_logic settings_arg.lower_threshold_voltage
        kMaxCapVoltage := voltage_mv_to_logic settings_arg.kMaxCapVoltage
        kMinCapVoltage := voltage_mv_to_logic settings_arg.kMinCapVoltage
        kInitCapVoltage := voltage_mv_to_logic settings_arg.kInitCapVoltage
        kDcoutputVoltage := voltage_mv_to_logic settings_arg.kDcoutputVoltage
        kLeakageCurrent := current_ua_to_logic settings_arg.kLeakageCurrent
        kOnTimeLeakageCurrent := current_ua_to_logic settings_arg.kOnTimeLeakageCurrent }
    let pre_sqrt :=
      (conv.capacitance_uF % U32M + U32M - conv.kOutputCap_uF % U32M) % U32M
        * 1024 % U32M * 1024 % U32M / (conv.capacitance_uF % U32M)
    some
      { settings := conv
        callback_ref := callback_arg
        kScaleInput := 102911
        outputcap_scale_factor := SquareRootRounded pre_sqrt
        cap_voltage := conv.kInitCapVoltage
        is_outputting := false
        is_enabled := false
        discretize_cntr := 0 }

/-- The `input_current` computation of `virtcap_update` (lines 116-118):
`(int32_t) input_power * kScaleInput / (cap_voltage >> 13) * efficiency >> 13`
followed by `input_current -= settings.kLeakageCurrent`, all on `uint32_t`
bit patterns. -/
def virtcap_input_current (s : VirtcapState) (input_power efficiency : Nat) : Nat :=
  let divisor := s.cap_voltage / 2 ^ 13
  let ic := input_power % U32M * s.kScaleInput % U32M / divisor
              * (efficiency % U32M) % U32M / 2 ^ 13
  (ic + U32M - s.settings.kLeakageCurrent % U32M) % U32M

/-- The `output_current` computation of `virtcap_update` (line 126):
`voltage_measured * current_measured / (cap_voltage >> 13)
 * settings.kConverterEfficiency >> 13` on `uint32_t` bit patterns
(`current_measured` already forced to zero by the caller when not
outputting). -/
def virtcap_output_current (s : VirtcapState) (voltage_measured current_measured : Nat) : Nat :=
  let divisor := s.cap_voltage / 2 ^ 13
  voltage_measured % U32M * (current_measured % U32M) % U32M / divisor
    * (s.settings.kConverterEfficiency % U32M) % U32M / 2 ^ 13

/-- The `new_cap_voltage` computation of `virtcap_update` (line 128):
`cap_voltage + ((input_current - output_current) << 13) * sample_period_us
 / (100 * capacitance_uF)` on `uint32_t` bit patterns. -/
def virtcap_new_cap_voltage (s : VirtcapState) (input_current output_current : Nat) : Nat :=
  (s.cap_voltage
    + (input_current + U32M - output_current % U32M) % U32M * 2 ^ 13 % U32M
        * (s.settings.sample_period_us % U32M) % U32M
        / (100 * (s.settings.capacitance_uF % U32M) % U32M)) % U32M

/-- The clamp of `virtcap_update` (lines 156-163): saturate `new_cap_voltage`
into `[kMinCapVoltage, kMaxCapVoltage]`. -/
def virtcap_clamp (s : VirtcapState) (new_cap_voltage : Nat) : Nat :=
  if s.settings.kMaxCapVoltage ≤ new_cap_voltage then s.settings.kMaxCapVoltage
  else if new_cap_voltage < s.settings.kMinCapVoltage then s.settings.kMinCapVoltage
  else new_cap_voltage

/-- `virtcap_update` from virtcap.c.  Inputs are the `uint32_t`/`int32_t`
bit patterns of `current_measured`, `voltage_measured`, `input_power` and
`efficiency`.  The result is the new global state together with the list of
synchronous `callback` invocations made during the call (in order); `none`
models the divisions by zero (undefined behaviour) that the source performs
when `cap_voltage >> 13` or `100 * capacitance_uF` (as `uint32_t`) is zero. -/
def virtcap_update (s : VirtcapState)
    (current_measured voltage_measured input_power efficiency : Nat) :
    Option (VirtcapState × List Bool) :=
  if s.cap_voltage / 2 ^ 13 = 0 then none
  else if 100 * (s.settings.capacitance_uF % U32M) % U32M = 0 then none
  else
    let input_current := virtcap_input_current s input_power efficiency
    let cm := if s.is_outputting then current_measured else 0
    let output_current := virtcap_output_current s voltage_measured cm
    let new_cap_voltage :=
      virtcap_clamp s (virtcap_new_cap_voltage s input_current output_current)
    let cntr := (s.discretize_cntr + 1) % U32M
    if s.settings.kDiscretize ≤ cntr then
      if s.is_outputting ∧ new_cap_voltage < s.settings.lower_threshold_voltage then
        some ({ s with cap_voltage := new_cap_voltage
                       is_outputting := false
                       discretize_cntr := 0 }, [false])
      else if s.is_outputting = false ∧ s.settings.upper_threshold_voltage < new_cap_voltage then
        some ({ s with cap_voltage := new_cap_voltage / 2 ^ 10 * s.outputcap_scale_factor % U32M
                       is_outputting := true
                       discretize_cntr := 0 }, [true])
      else
        some ({ s with cap_voltage := new_cap_voltage
                       discretize_cntr := 0 }, [])
    else
      some ({ s with cap_voltage := new_cap_voltage
                     discretize_cntr := cntr }, [])

/-- A sequence of `virtcap_update` calls, threading the state and
concatenating the callback invocations; fails if any call divides by zero. -/
def virtcap_run (s : VirtcapState) :
    List (Nat × Nat × Nat × Nat) → Option (VirtcapState × List Bool)
  | [] => some (s, [])
  | i :: rest =>
      (virtcap_update s i.1 i.2.1 i.2.2.1 i.2.2.2).bind fun p =>
        (virtcap_run p.1 rest).map fun q => (q.1, p.2 ++ q.2)

/-- The committed (clamped) voltage of an update call, before any
charge-redistribution. -/
def virtcap_clamped_voltage (s : VirtcapState) (cm vm ip eff : Nat) : Nat :=
  virtcap_clamp s (virtcap_new_cap_voltage s (virtcap_input_current s ip eff)
    (virtcap_output_current s vm (if s.is_outputting then cm else 0)))

lemma virtcap_update_cases (s : VirtcapState) (cm vm ip eff : Nat) (s' : VirtcapState)
    (evs : List Bool) (hup : virtcap_update s cm vm ip eff = some (s', evs)) :
    (s.settings.kDiscretize ≤ (s.discretize_cntr + 1) % U32M ∧
        s.is_outputting = true ∧
        virtcap_clamped_voltage s cm vm ip eff < s.settings.lower_threshold_voltage ∧
        s' = { s with cap_voltage := virtcap_clamped_voltage s cm vm ip eff,
                      is_outputting := false, discretize_cntr := 0 } ∧
        evs = [false]) ∨
    (s.settings.kDiscretize ≤ (s.discretize_cntr + 1) % U32M ∧
        s.is_outputting = false ∧
        s.settings.upper_threshold_voltage < virtcap_clamped_voltage s cm vm ip eff ∧
        s' = { s with cap_voltage :=
                        virtcap_clamped_voltage s cm vm ip eff / 2 ^ 10
                          * s.outputcap_scale_factor % U32M,
                      is_outputting := true, discretize_cntr := 0 } ∧
        evs = [true]) ∨
    (s.settings.kDiscretize ≤ (s.discretize_cntr + 1) % U32M ∧
        ¬(s.is_outputting = true ∧
            virtcap_clamped_voltage s cm vm ip eff < s.settings.lower_threshold_voltage) ∧
        ¬(s.is_outputting = false ∧
            s.settings.upper_threshold_voltage < virtcap_clamped_voltage s cm vm ip eff) ∧
        s' = { s with cap_voltage := virtcap_clamped_voltage s cm vm ip eff,
                      discretize_cntr := 0 } ∧
        evs = []) ∨
    ((s.discretize_cntr + 1) % U32M < s.settings.kDiscretize ∧
        s' = { s with cap_voltage := virtcap_clamped_voltage s cm vm ip eff,
                      discretize_cntr := (s.discretize_cntr + 1) % U32M } ∧
        evs = []) := by
  unfold virtcap_update at hup
  split at hup
  · exact absurd hup (by simp)
  split at hup
  · exact absurd hup (by simp)
  dsimp only at hup
  rw [show virtcap_clamp s (virtcap_new_cap_voltage s (virtcap_input_current s ip eff)
        (virtcap_output_current s vm (if s.is_outputting then cm else 0)))
      = virtcap_clamped_voltage s cm vm ip eff from rfl] at hup
  split at hup
  · rename_i hwrap
    split at hup
    · rename_i hoff
      simp only [Option.some.injEq, Prod.mk.injEq] at hup
      exact Or.inl ⟨hwrap, hoff.1, hoff.2, hup.1.symm, hup.2.symm⟩
    split at hup
    · rename_i hnot hon
      simp only [Option.some.injEq, Prod.mk.injEq] at hup
      exact Or.inr (Or.inl ⟨hwrap, hon.1, hon.2, hup.1.symm, hup.2.symm⟩)
    · rename_i hnot1 hnot2
      simp only [Option.some.injEq, Prod.mk.injEq] at hup
      exact Or.inr (Or.inr (Or.inl ⟨hwrap, hnot1, hnot2, hup.1.symm, hup.2.symm⟩))
  · rename_i hnowrap
    simp only [Option.some.injEq, Prod.mk.injEq] at hup
    exact Or.inr (Or.inr (Or.inr ⟨by omega, hup.1.symm, hup.2.symm⟩))

lemma virtcap_clamp_bounds (s : VirtcapState) (v : Nat)
    (h : s.settings.kMinCapVoltage ≤ s.settings.kMaxCapVoltage) :
    s.settings.kMinCapVoltage ≤ virtcap_clamp s v ∧
    virtcap_clamp s v ≤ s.settings.kMaxCapVoltage := by
  unfold virtcap_clamp
  split
  · exact ⟨h, Nat.le_refl _⟩
  split
  · exact ⟨Nat.le_refl _, h⟩
  · rename_i h1 h2
    omega

lemma virtcap_update_settings_eq (s : VirtcapState) (cm vm ip eff : Nat)
    (s' : VirtcapState) (evs : List Bool)
    (hup : virtcap_update s cm vm ip eff = some (s', evs)) :
    s'.settings = s.settings ∧ s'.callback_ref = s.callback_ref ∧
    s'.kScaleInput = s.kScaleInput ∧
    s'.outputcap_scale_factor = s.outputcap_scale_factor ∧
    s'.is_enabled = s.is_enabled := by
  rcases virtcap_update_cases s cm vm ip eff s' evs hup with
    ⟨_, _, _, rfl, _⟩ | ⟨_, _, _, rfl, _⟩ | ⟨_, _, _, rfl, _⟩ | ⟨_, rfl, _⟩ <;>
    exact ⟨rfl, rfl, rfl, rfl, rfl⟩

lemma virtcap_update_no_wrap (s : VirtcapState) (cm vm ip eff : Nat)
    (s' : VirtcapState) (evs : List Bool)
    (hup : virtcap_update s cm vm ip eff = some (s', evs))
    (h : (s.discretize_cntr + 1) % U32M < s.settings.kDiscretize) :
    s' = { s with cap_voltage := virtcap_clamped_voltage s cm vm ip eff,
                  discretize_cntr := (s.discretize_cntr + 1) % U32M } ∧ evs = [] := by
  rcases virtcap_update_cases s cm vm ip eff s' evs hup with
    ⟨hw, _, _, _, _⟩ | ⟨hw, _, _, _, _⟩ | ⟨hw, _, _, _, _⟩ | ⟨_, rfl, rfl⟩
  · omega
  · omega
  · omega
  · exact ⟨rfl, rfl⟩

/-- A concrete state used to witness the update theorems: a plausible
post-`init` configuration (`kDiscretize = 2`, counter at 0, not
outputting). -/
def exState : VirtcapState :=
  { settings :=
      { upper_threshold_voltage := 5000000, lower_threshold_voltage := 4000000,
        kMaxCapVoltage := 1073741824, kMinCapVoltage := 0, kInitCapVoltage := 1048576,
        kDcoutputVoltage := 0, kLeakageCurrent := 0, kOnTimeLeakageCurrent := 0,
        capacitance_uF := 1000, kOutputCap_uF := 100, kConverterEfficiency := 50,
        sample_period_us := 0, kDiscretize := 2 }
    callback_ref := 7, kScaleInput := 102911, outputcap_scale_factor := 700,
    cap_voltage := 1048576, is_outputting := false, is_enabled := false,
    discretize_cntr := 0 }

/-- C9: `virtcap_update` leaves the stored settings, the derived constants
`kScaleInput` and `outputcap_scale_factor`, the stored callback reference and
the `is_enabled` flag unchanged; only `cap_voltage`, `is_outputting` and
`discretize_cntr` are mutated by an update (settings are written only by
`virtcap_init`'s in-place unit conversion, which is part of `virtcap_init`
in this development). -/
theorem virtcap_update_frame (s : VirtcapState) (cm vm ip eff : Nat)
    (s' : VirtcapState) (evs : List Bool)
    (hup : virtcap_update s cm vm ip eff = some (s', evs)) :
    s'.settings = s.settings ∧ s'.kScaleInput = s.kScaleInput ∧
    s'.outputcap_scale_factor = s.outputcap_scale_factor ∧
    s'.callback_ref = s.callback_ref ∧ s'.is_enabled = s.is_enabled := by
  obtain ⟨h1, h2, h3, h4, h5⟩ := virtcap_update_settings_eq s cm vm ip eff s' evs hup
  exact ⟨h1, h3, h4, h2, h5⟩

theorem virtcap_update_frame_witness :
    virtcap_update exState 0 0 0 0 = some ({ exState with discretize_cntr := 1 }, []) ∧
    (({ exState with discretize_cntr := 1 } : VirtcapState).settings = exState.settings ∧
     ({ exState with discretize_cntr := 1 } : VirtcapState).kScaleInput = exState.kScaleInput ∧
     ({ exState with discretize_cntr := 1 } : VirtcapState).outputcap_scale_factor
        = exState.outputcap_scale_factor ∧
     ({ exState with discretize_cntr := 1 } : VirtcapState).callback_ref = exState.callback_ref ∧
     ({ exState with discretize_cntr := 1 } : VirtcapState).is_enabled = exState.is_enabled) :=
  ⟨by decide,
   virtcap_update_frame exState 0 0 0 0 { exState with discretize_cntr := 1 } [] (by decide)⟩

/-- C6: while `is_outputting` is false the measured load current has no
effect: two update calls from the same state that differ only in
`current_measured` produce the same result (same post-state and the same
callback behaviour). -/
theorem virtcap_update_current_noninterference (s : VirtcapState)
    (cm₁ cm₂ vm ip eff : Nat) (h : s.is_outputting = false) :
    virtcap_update s cm₁ vm ip eff = virtcap_update s cm₂ vm ip eff := by
  simp [virtcap_update, h]

theorem virtcap_update_current_noninterference_witness :
    exState.is_outputting = false ∧
    virtcap_update exState 5 0 0 0 = virtcap_update exState 9 0 0 0 :=
  ⟨rfl, virtcap_update_current_noninterference exState 5 9 0 0 0 rfl⟩

/-- C3: per update call the callback is invoked at most once; it is invoked
exactly when `is_outputting` changes during the call, and its argument is the
new value of `is_outputting`.  `evs` is the list of synchronous callback
invocations of the call, in order. -/
theorem virtcap_update_callback_spec (s : VirtcapState) (cm vm ip eff : Nat)
    (s' : VirtcapState) (evs : List Bool)
    (hup : virtcap_update s cm vm ip eff = some (s', evs)) :
    evs.length ≤ 1 ∧
    (evs = [] ↔ s'.is_outputting = s.is_outputting) ∧
    (evs ≠ [] → evs = [s'.is_outputting] ∧ s'.is_outputting ≠ s.is_outputting) := by
  rcases virtcap_update_cases s cm vm ip eff s' evs hup with
    ⟨_, ho, _, rfl, rfl⟩ | ⟨_, ho, _, rfl, rfl⟩ | ⟨_, _, _, rfl, rfl⟩ | ⟨_, rfl, rfl⟩
  · exact ⟨by simp, by simp [ho], fun _ => ⟨rfl, by simp [ho]⟩⟩
  · exact ⟨by simp, by simp [ho], fun _ => ⟨rfl, by simp [ho]⟩⟩
  · exact ⟨by simp, by simp, fun hne => absurd rfl hne⟩
  · exact ⟨by simp, by simp, fun hne => absurd rfl hne⟩

theorem virtcap_update_callback_spec_witness :
    virtcap_update exState 0 0 0 0 = some ({ exState with discretize_cntr := 1 }, []) ∧
    (([] : List Bool).length ≤ 1 ∧
     (([] : List Bool) = [] ↔
        ({ exState with discretize_cntr := 1 } : VirtcapState).is_outputting
          = exState.is_outputting) ∧
     (([] : List Bool) ≠ [] →
        ([] : List Bool)
            = [({ exState with discretize_cntr := 1 } : VirtcapState).is_outputting] ∧
          ({ exState with discretize_cntr := 1 } : VirtcapState).is_outputting
            ≠ exState.is_outputting)) :=
  ⟨by decide,
   virtcap_update_callback_spec exState 0 0 0 0 { exState with discretize_cntr := 1 } []
     (by decide)⟩

lemma virtcap_run_constant_outputting (inputs : List (Nat × Nat × Nat × Nat)) :
    ∀ (s s' : VirtcapState) (evs : List Bool),
      virtcap_run s inputs = some (s', evs) →
      s.settings.kDiscretize ≤ U32M →
      s.discretize_cntr + inputs.length < s.settings.kDiscretize →
      s'.is_outputting = s.is_outputting := by
  induction inputs with
  | nil =>
      intro s s' evs h _ _
      simp only [virtcap_run, Option.some.injEq, Prod.mk.injEq] at h
      rw [← h.1]
  | cons i rest ih =>
      intro s s' evs h hM hlt
      simp only [virtcap_run] at h
      cases hu : virtcap_update s i.1 i.2.1 i.2.2.1 i.2.2.2 with
      | none => rw [hu] at h; simp at h
      | some p =>
          rw [hu] at h
          obtain ⟨s1, evs1⟩ := p
          have hlen : s.discretize_cntr + (rest.length + 1) < s.settings.kDiscretize := by
            simpa [Nat.add_comm] using hlt
          have hnw : (s.discretize_cntr + 1) % U32M < s.settings.kDiscretize :=
            Nat.lt_of_le_of_lt (Nat.mod_le _ _) (by omega)
          obtain ⟨rfl, rfl⟩ :=
            virtcap_update_no_wrap s i.1 i.2.1 i.2.2.1 i.2.2.2 s1 evs1 hu hnw
          have hmod : (s.discretize_cntr + 1) % U32M = s.discretize_cntr + 1 :=
            Nat.mod_eq_of_lt (by omega)
          simp only [Option.some_bind] at h
          cases hr : virtcap_run
              { s with cap_voltage := virtcap_clamped_voltage s i.1 i.2.1 i.2.2.1 i.2.2.2,
                       discretize_cntr := (s.discretize_cntr + 1) % U32M } rest with
          | none => rw [hr] at h; simp at h
          | some q =>
              rw [hr] at h
              simp only [Option.map_some', Option.some.injEq, Prod.mk.injEq,
                List.nil_append] at h
              have hq := ih _ q.1 q.2 hr (by simpa using hM) (by simp [hmod]; omega)
              rw [← h.1]
              simpa using hq

/-- C4: `is_outputting` never changes during an update call in which the
counter does not wrap (the incremented pre-call counter stays below
`kDiscretize`), and no callback fires in such a call; consequently, over any
run of update calls that stays inside one debounce window
(`discretize_cntr + number of calls < kDiscretize`), `is_outputting` is
constant regardless of the intermediate voltage excursions, so it changes at
most once every `kDiscretize` calls. -/
theorem virtcap_update_debounce :
    (∀ (s : VirtcapState) (cm vm ip eff : Nat) (s' : VirtcapState) (evs : List Bool),
       virtcap_update s cm vm ip eff = some (s', evs) →
       s.discretize_cntr + 1 < s.settings.kDiscretize →
       s'.is_outputting = s.is_outputting ∧ evs = []) ∧
    (∀ (s : VirtcapState) (inputs : List (Nat × Nat × Nat × Nat))
       (s' : VirtcapState) (evs : List Bool),
       virtcap_run s inputs = some (s', evs) →
       s.settings.kDiscretize ≤ U32M →
       s.discretize_cntr + inputs.length < s.settings.kDiscretize →
       s'.is_outputting = s.is_outputting) := by
  constructor
  · intro s cm vm ip eff s' evs hup hlt
    have hnw : (s.discretize_cntr + 1) % U32M < s.settings.kDiscretize :=
      Nat.lt_of_le_of_lt (Nat.mod_le _ _) hlt
    obtain ⟨rfl, rfl⟩ := virtcap_update_no_wrap s cm vm ip eff s' evs hup hnw
    exact ⟨rfl, rfl⟩
  · intro s inputs s' evs h hM hlt
    exact virtcap_run_constant_outputting inputs s s' evs h hM hlt

theorem virtcap_update_debounce_witness :
    (virtcap_update exState 0 0 0 0 = some ({ exState with discretize_cntr := 1 }, []) ∧
     exState.discretize_cntr + 1 < exState.settings.kDiscretize ∧
     ({ exState with discretize_cntr := 1 } : VirtcapState).is_outputting
        = exState.is_outputting ∧ ([] : List Bool) = []) ∧
    (virtcap_run exState [(0, 0, 0, 0)] = some ({ exState with discretize_cntr := 1 }, []) ∧
     exState.settings.kDiscretize ≤ U32M ∧
     exState.discretize_cntr + [(0, 0, 0, 0)].length < exState.settings.kDiscretize ∧
     ({ exState with discretize_cntr := 1 } : VirtcapState).is_outputting
        = exState.is_outputting) :=
  ⟨⟨by decide, by decide,
    (virtcap_update_debounce.1 exState 0 0 0 0 { exState with discretize_cntr := 1 } []
      (by decide) (by decide)).1, rfl⟩,
   ⟨by decide, by decide, by decide,
    virtcap_update_debounce.2 exState [(0, 0, 0, 0)] { exState with discretize_cntr := 1 } []
      (by decide) (by decide) (by decide)⟩⟩

/-- C8 (amended): provided `kDiscretize ≥ 1`, the counter satisfies
`0 ≤ discretize_cntr < kDiscretize` after `virtcap_init` and after every
completed `virtcap_update`; each update increments it once (mod `2^32`) and
wraps it to 0 in the call where the incremented value reaches `kDiscretize`.
(`0 ≤ discretize_cntr` is trivial over `Nat`.)  With `kDiscretize = 0` the
claim fails already after `virtcap_init`, see the counterexample. -/
theorem virtcap_discretize_cntr_invariant :
    (∀ (raw : VirtCapNoFpSettings) (cb : Nat) (s0 : VirtcapState),
       virtcap_init raw cb = some s0 → 1 ≤ raw.kDiscretize →
       s0.discretize_cntr < s0.settings.kDiscretize) ∧
    (∀ (s : VirtcapState) (cm vm ip eff : Nat) (s' : VirtcapState) (evs : List Bool),
       virtcap_update s cm vm ip eff = some (s', evs) →
       1 ≤ s.settings.kDiscretize →
       s'.discretize_cntr < s'.settings.kDiscretize ∧
       s'.discretize_cntr =
         if s.settings.kDiscretize ≤ (s.discretize_cntr + 1) % U32M then 0
         else (s.discretize_cntr + 1) % U32M) := by
  constructor
  · intro raw cb s0 h h1
    unfold virtcap_init at h
    split at h
    · exact absurd h (by simp)
    · simp only [Option.some.injEq] at h
      rw [← h]
      exact h1
  · intro s cm vm ip eff s' evs hup h1
    rcases virtcap_update_cases s cm vm ip eff s' evs hup with
      ⟨hw, _, _, rfl, _⟩ | ⟨hw, _, _, rfl, _⟩ | ⟨hw, _, _, rfl, _⟩ | ⟨hnw, rfl, _⟩
    · exact ⟨h1, (if_pos hw).symm⟩
    · exact ⟨h1, (if_pos hw).symm⟩
    · exact ⟨h1, (if_pos hw).symm⟩
    · exact ⟨hnw, (if_neg (by omega)).symm⟩

theorem virtcap_discretize_cntr_invariant_witness :
    virtcap_update exState 0 0 0 0 = some ({ exState with discretize_cntr := 1 }, []) ∧
    1 ≤ exState.settings.kDiscretize ∧
    (({ exState with discretize_cntr := 1 } : VirtcapState).discretize_cntr
        < ({ exState with discretize_cntr := 1 } : VirtcapState).settings.kDiscretize ∧
     ({ exState with discretize_cntr := 1 } : VirtcapState).discretize_cntr =
       if exState.settings.kDiscretize ≤ (exState.discretize_cntr + 1) % U32M then 0
       else (exState.discretize_cntr + 1) % U32M) :=
  ⟨by decide, by decide,
   virtcap_discretize_cntr_invariant.2 exState 0 0 0 0 { exState with discretize_cntr := 1 }
     [] (by decide) (by decide)⟩

/-- C1 (amended): provided the converted settings satisfy
`kMinCapVoltage ≤ kMaxCapVoltage`, the committed `cap_voltage` satisfies
`kMinCapVoltage ≤ cap_voltage ≤ kMaxCapVoltage` at the end of every update
call in which the Off-to-On charge-redistribution step does not fire
(`evs ≠ [true]`, i.e. including every On-to-Off transition and every
non-transition call).  In an Off-to-On call the redistribution
`new_cap_voltage = (new_cap_voltage >> 10) * outputcap_scale_factor` is
applied after the clamp and can leave the committed voltage outside the
bounds, see the counterexample. -/
theorem virtcap_cap_voltage_clamped (s : VirtcapState) (cm vm ip eff : Nat)
    (s' : VirtcapState) (evs : List Bool)
    (hminmax : s.settings.kMinCapVoltage ≤ s.settings.kMaxCapVoltage)
    (hup : virtcap_update s cm vm ip eff = some (s', evs))
    (hnoredist : evs ≠ [true]) :
    s.settings.kMinCapVoltage ≤ s'.cap_voltage ∧
    s'.cap_voltage ≤ s.settings.kMaxCapVoltage := by
  rcases virtcap_update_cases s cm vm ip eff s' evs hup with
    ⟨_, _, _, rfl, _⟩ | ⟨_, _, _, _, rfl⟩ | ⟨_, _, _, rfl, _⟩ | ⟨_, rfl, _⟩
  · exact virtcap_clamp_bounds s _ hminmax
  · exact absurd rfl hnoredist
  · exact virtcap_clamp_bounds s _ hminmax
  · exact virtcap_clamp_bounds s _ hminmax

theorem virtcap_cap_voltage_clamped_witness :
    exState.settings.kMinCapVoltage ≤ exState.settings.kMaxCapVoltage ∧
    virtcap_update exState 0 0 0 0 = some ({ exState with discretize_cntr := 1 }, []) ∧
    ([] : List Bool) ≠ [true] ∧
    (exState.settings.kMinCapVoltage
        ≤ ({ exState with discretize_cntr := 1 } : VirtcapState).cap_voltage ∧
     ({ exState with discretize_cntr := 1 } : VirtcapState).cap_voltage
        ≤ exState.settings.kMaxCapVoltage) :=
  ⟨by decide, by decide, by decide,
   virtcap_cap_voltage_clamped exState 0 0 0 0 { exState with discretize_cntr := 1 } []
     (by decide) (by decide) (by decide)⟩

/-- C10 (amended): the two divisions computing `input_current` (line 116) and
`output_current` (line 126) share the divisor `cap_voltage >> 13`, which is
nonzero exactly when `cap_voltage ≥ 2^13`; the charge-integration step
(line 128) performs a third division, by `100 * capacitance_uF` in `uint32_t`.
When that third divisor is nonzero, the update's division-by-zero (modelled
as `none`) is unreachable exactly when `cap_voltage ≥ 2^13` on entry, and
`cap_voltage < 2^13` makes the update's arithmetic undefined.  With
`100 * capacitance_uF ≡ 0 (mod 2^32)` the division by zero is reachable even
with `cap_voltage ≥ 2^13`, see the counterexample. -/
theorem virtcap_update_divisors (s : VirtcapState) (cm vm ip eff : Nat)
    (hden : 100 * (s.settings.capacitance_uF % U32M) % U32M ≠ 0) :
    ((virtcap_update s cm vm ip eff).isSome = true ↔ 2 ^ 13 ≤ s.cap_voltage) ∧
    (¬s.cap_voltage / 2 ^ 13 = 0 ↔ 2 ^ 13 ≤ s.cap_voltage) := by
  have h8 : (2 : Nat) ^ 13 = 8192 := by norm_num
  constructor
  · constructor
    · intro hsome
      by_contra hlt
      have h0 : s.cap_voltage / 2 ^ 13 = 0 := by
        rw [h8] at hlt ⊢
        omega
      unfold virtcap_update at hsome
      rw [if_pos h0] at hsome
      simp at hsome
    · intro hge
      unfold virtcap_update
      rw [if_neg (by rw [h8] at hge ⊢; omega), if_neg hden]
      dsimp only
      repeat' split
      all_goals rfl
  · rw [h8]
    omega

theorem virtcap_update_divisors_witness :
    100 * (exState.settings.capacitance_uF % U32M) % U32M ≠ 0 ∧
    (((virtcap_update exState 0 0 0 0).isSome = true ↔ 2 ^ 13 ≤ exState.cap_voltage) ∧
     (¬exState.cap_voltage / 2 ^ 13 = 0 ↔ 2 ^ 13 ≤ exState.cap_voltage)) :=
  ⟨by decide, virtcap_update_divisors exState 0 0 0 0 (by decide)⟩

/-- C7: the `UnitConversion` functions are strictly monotonic increasing over
the valid input domain, i.e. as long as the `uint32_t` products do not wrap:
`voltage_mv_to_logic` on `y < 2^14` (so `y * 32 << 13 < 2^32`, covering the
documented ~8.192 V ADC range) and `current_ua_to_logic` on
`y * 3216 < 2^32`. -/
theorem unit_conversion_strict_mono :
    (∀ x y : Nat, x < y → y < 2 ^ 14 →
       voltage_mv_to_logic x < voltage_mv_to_logic y) ∧
    (∀ x y : Nat, x < y → y * 3216 < 2 ^ 32 →
       current_ua_to_logic x < current_ua_to_logic y) := by
  constructor
  · intro x y hxy hy
    have h14 : (2 : Nat) ^ 14 = 16384 := by norm_num
    rw [h14] at hy
    simp only [voltage_mv_to_logic, U32M]
    norm_num
    omega
  · intro x y hxy hy
    have h32 : (2 : Nat) ^ 32 = 4294967296 := by norm_num
    rw [h32] at hy
    simp only [current_ua_to_logic, U32M]
    have hx : x * 3216 < 4294967296 := by omega
    rw [Nat.mod_eq_of_lt hx, Nat.mod_eq_of_lt hy]
    omega

theorem unit_conversion_strict_mono_witness :
    (1 < 2 ∧ 2 < 2 ^ 14 ∧ voltage_mv_to_logic 1 < voltage_mv_to_logic 2) ∧
    (1 < 2 ∧ 2 * 3216 < 2 ^ 32 ∧ current_ua_to_logic 1 < current_ua_to_logic 2) :=
  ⟨⟨by decide, by norm_num,
     unit_conversion_strict_mono.1 1 2 (by decide) (by norm_num)⟩,
   ⟨by decide, by norm_num,
     unit_conversion_strict_mono.2 1 2 (by decide) (by norm_num)⟩⟩

/-- The charge-integration law exactly as the spec states it (section 4.3,
step 5): `new_cap_voltage = cap_voltage + (((input_current - output_current)
<< 13) * sample_period_us) / (100 * capacitance_uF)`, each multiplication,
shift and truncating division applied in this order over 32-bit (mod `2^32`)
unsigned arithmetic. -/
def spec_charge_integration
    (cap_voltage input_current output_current sample_period_us capacitance_uF : Nat) : Nat :=
  let diff := (input_current + 2 ^ 32 - output_current % 2 ^ 32) % 2 ^ 32
  let shifted := diff * 2 ^ 13 % 2 ^ 32
  let scaled := shifted * (sample_period_us % 2 ^ 32) % 2 ^ 32
  let integrated := scaled / (100 * capacitance_uF % 2 ^ 32)
  (cap_voltage + integrated) % 2 ^ 32

lemma virtcap_charge_integration_eq (s : VirtcapState) (ic oc : Nat) :
    virtcap_new_cap_voltage s ic oc =
    spec_charge_integration s.cap_voltage ic oc s.settings.sample_period_us
      s.settings.capacitance_uF := by
  simp only [spec_charge_integration, virtcap_new_cap_voltage]
  rw [show (2 : Nat) ^ 32 = U32M from by norm_num [U32M]]
  rw [Nat.mul_mod 100 s.settings.capacitance_uF U32M]
  rw [Nat.mod_eq_of_lt (show 100 < U32M from by norm_num [U32M])]

/-- C5: the pre-clamp voltage of every update call is computed bit-exactly by
the spec's formula `cap_voltage + (((input_current - output_current) << 13) *
sample_period_us) / (100 * capacitance_uF)` over mod-`2^32` arithmetic in the
stated operation order: the code-side computation (`virtcap_new_cap_voltage`,
line 128 of virtcap.c) coincides with the spec-side formula
(`spec_charge_integration`) on all arguments, and in a call that does not hit
the hysteresis boundary the committed `cap_voltage` is exactly the clamp of
that formula applied to the code's `input_current`/`output_current`. -/
theorem virtcap_new_cap_voltage_bitexact :
    (∀ (s : VirtcapState) (ic oc : Nat),
       virtcap_new_cap_voltage s ic oc =
         spec_charge_integration s.cap_voltage ic oc s.settings.sample_period_us
           s.settings.capacitance_uF) ∧
    (∀ (s : VirtcapState) (cm vm ip eff : Nat) (s' : VirtcapState) (evs : List Bool),
       virtcap_update s cm vm ip eff = some (s', evs) →
       (s.discretize_cntr + 1) % U32M < s.settings.kDiscretize →
       s'.cap_voltage =
         virtcap_clamp s (spec_charge_integration s.cap_voltage
           (virtcap_input_current s ip eff)
           (virtcap_output_current s vm (if s.is_outputting then cm else 0))
           s.settings.sample_period_us s.settings.capacitance_uF)) := by
  constructor
  · exact fun s ic oc => virtcap_charge_integration_eq s ic oc
  · intro s cm vm ip eff s' evs hup hnw
    obtain ⟨rfl, -⟩ := virtcap_update_no_wrap s cm vm ip eff s' evs hup hnw
    show virtcap_clamped_voltage s cm vm ip eff = _
    unfold virtcap_clamped_voltage
    rw [virtcap_charge_integration_eq]

theorem virtcap_new_cap_voltage_bitexact_witness :
    virtcap_update exState 0 0 0 0 = some ({ exState with discretize_cntr := 1 }, []) ∧
    (exState.discretize_cntr + 1) % U32M < exState.settings.kDiscretize ∧
    ({ exState with discretize_cntr := 1 } : VirtcapState).cap_voltage =
      virtcap_clamp exState (spec_charge_integration exState.cap_voltage
        (virtcap_input_current exState 0 0)
        (virtcap_output_current exState 0 (if exState.is_outputting then 0 else 0))
        exState.settings.sample_period_us exState.settings.capacitance_uF) :=
  ⟨by decide, by decide,
   virtcap_new_cap_voltage_bitexact.2 exState 0 0 0 0 { exState with discretize_cntr := 1 }
     [] (by decide) (by decide)⟩

lemma shrinkOne_spec (a : Nat) : ∀ j : Nat, 1 ≤ a → a < 4 ^ (j + 1) →
    ∃ k, k ≤ j ∧ shrinkOne a (4 ^ j) = 4 ^ k ∧ 4 ^ k ≤ a ∧ a < 4 ^ (k + 1) := by
  intro j
  induction j with
  | zero =>
      intro h1 h4
      have hne : ¬a < 4 ^ 0 := by simp only [pow_zero, Nat.lt_one_iff]; omega
      exact ⟨0, Nat.le_refl 0, by rw [shrinkOne, dif_neg hne], by simpa using h1, h4⟩
  | succ j ih =>
      intro h1 h4
      by_cases hle : 4 ^ (j + 1) ≤ a
      · refine ⟨j + 1, Nat.le_refl _, ?_, hle, h4⟩
        rw [shrinkOne, dif_neg (by omega)]
      · push_neg at hle
        obtain ⟨k, hk, heq, h5, h6⟩ := ih h1 hle
        refine ⟨k, Nat.le_succ_of_le hk, ?_, h5, h6⟩
        rw [shrinkOne, dif_pos hle,
          show (4 : Nat) ^ (j + 1) / 4 = 4 ^ j from by
            rw [pow_succ]; exact Nat.mul_div_cancel _ (by norm_num)]
        exact heq

lemma sqrtLoop_zero (op res : Nat) : sqrtLoop op res 0 = (op, res) := by
  rw [sqrtLoop]; simp

lemma sqrtLoop_step_yes (op res one : Nat) (h0 : one ≠ 0)
    (ht : (res + one) % U32M ≤ op) :
    sqrtLoop op res one =
      sqrtLoop ((op + U32M - (res + one) % U32M) % U32M)
        ((res + 2 * one % U32M) % U32M / 2) (one / 4) := by
  conv_lhs => rw [sqrtLoop]
  rw [dif_neg h0]
  dsimp only
  rw [if_pos ht]

lemma sqrtLoop_step_no (op res one : Nat) (h0 : one ≠ 0)
    (ht : ¬(res + one) % U32M ≤ op) :
    sqrtLoop op res one = sqrtLoop op (res / 2) (one / 4) := by
  conv_lhs => rw [sqrtLoop]
  rw [dif_neg h0]
  dsimp only
  rw [if_neg ht]

lemma sqrtLoop_spec (N : Nat) (hN : N < U32M) :
    ∀ k p e : Nat, e = 2 ^ k → k ≤ 15 → p % (2 * e) = 0 → p ^ 2 ≤ N →
      N < (p + 2 * e) ^ 2 →
      ∃ q, sqrtLoop (N - p ^ 2) (p * (2 * e)) (e ^ 2) = (N - q ^ 2, q) ∧
        q ^ 2 ≤ N ∧ N < (q + 1) ^ 2 := by
  have hNlit : N < 4294967296 := hN
  intro k
  induction k with
  | zero =>
      intro p e he hk hdvd hple hlt
      rw [pow_zero] at he
      subst he
      have hp16 : p < 65536 := by
        by_contra hc
        push_neg at hc
        have h1 : 65536 ^ 2 ≤ p ^ 2 := Nat.pow_le_pow_left hc 2
        norm_num at h1
        omega
      simp only [mul_one, one_pow] at hlt ⊢
      have hsq : (p + 1) ^ 2 = p ^ 2 + (p * 2 + 1) := by ring
      have hm1 : (p * 2 + 1) % U32M = p * 2 + 1 :=
        Nat.mod_eq_of_lt (by simp only [U32M]; omega)
      by_cases ht : (p * 2 + 1) % U32M ≤ N - p ^ 2
      · rw [sqrtLoop_step_yes _ _ _ (by norm_num) ht]
        rw [hm1] at ht
        have hop : (N - p ^ 2 + U32M - (p * 2 + 1) % U32M) % U32M = N - (p + 1) ^ 2 := by
          rw [hm1]
          simp only [U32M]
          omega
        have hres : (p * 2 + 2 * 1 % U32M) % U32M / 2 = p + 1 := by
          simp only [U32M]; omega
        rw [hop, hres, show (1 : Nat) / 4 = 0 from by norm_num, sqrtLoop_zero]
        have h22 : (p + 1 + 1) ^ 2 = (p + 2) ^ 2 := by ring
        exact ⟨p + 1, rfl, by omega, by omega⟩
      · rw [sqrtLoop_step_no _ _ _ (by norm_num) ht]
        rw [hm1] at ht
        push_neg at ht
        have hres : p * 2 / 2 = p := by omega
        rw [hres, show (1 : Nat) / 4 = 0 from by norm_num, sqrtLoop_zero]
        exact ⟨p, rfl, hple, by omega⟩
  | succ j ih =>
      intro p e he hk hdvd hple hlt
      have hf : 1 ≤ (2 : Nat) ^ j := Nat.one_le_two_pow
      have he2 : e = 2 * 2 ^ j := by rw [he, pow_succ, Nat.mul_comm]
      have hf14 : (2 : Nat) ^ j ≤ 16384 := by
        calc (2 : Nat) ^ j ≤ 2 ^ 14 := Nat.pow_le_pow_right (by norm_num) (by omega)
          _ = 16384 := by norm_num
      have he16a : 2 ≤ e := by omega
      have he16b : e ≤ 32768 := by omega
      have hp16 : p < 65536 := by
        by_contra hc
        push_neg at hc
        have h1 : 65536 ^ 2 ≤ p ^ 2 := Nat.pow_le_pow_left hc 2
        norm_num at h1
        omega
      have hdp : (2 * e) ∣ p := Nat.dvd_of_mod_eq_zero hdvd
      have hpe : p + 2 * e ≤ 65536 := by
        obtain ⟨m, hm⟩ := hdp
        have h2e : 2 * e = 2 ^ (j + 2) := by rw [he, pow_succ, pow_succ]; ring
        have hdvd16 : (2 : Nat) ^ (j + 2) ∣ 65536 := by
          rw [show (65536 : Nat) = 2 ^ 16 from by norm_num]
          exact pow_dvd_pow 2 (by omega)
        obtain ⟨M2, hM2⟩ := hdvd16
        have hmM : M2 ≤ m → False := by
          intro hc
          have h1 : 2 ^ (j + 2) * M2 ≤ 2 ^ (j + 2) * m :=
            Nat.mul_le_mul (Nat.le_refl _) hc
          rw [← hM2, ← h2e, ← hm] at h1
          omega
        have hstep : 2 * e * (m + 1) ≤ 2 * e * M2 := by
          refine Nat.mul_le_mul (Nat.le_refl _) ?_
          by_contra hc
          push_neg at hc
          exact hmM (by omega)
        rw [h2e, ← hM2] at hstep
        rw [hm, h2e]
        have hlink : (2 : Nat) ^ (j + 2) * (m + 1) = 2 ^ (j + 2) * m + 2 ^ (j + 2) := by ring
        omega
      have hone0 : e ^ 2 ≠ 0 := by positivity
      have hsq1 : (p + e) ^ 2 = p ^ 2 + (p * (2 * e) + e ^ 2) := by ring
      have hpe1 : p + e ≤ 65535 := by omega
      have hx32 : p * (2 * e) + e ^ 2 < 4294967296 := by
        have h2 : (p + e) ^ 2 ≤ 65535 ^ 2 := Nat.pow_le_pow_left hpe1 2
        norm_num at h2
        omega
      have hm1 : (p * (2 * e) + e ^ 2) % U32M = p * (2 * e) + e ^ 2 :=
        Nat.mod_eq_of_lt (by simp only [U32M]; omega)
      have hone4 : e ^ 2 / 4 = ((2 : Nat) ^ j) ^ 2 := by
        rw [he2, show (2 * 2 ^ j) ^ 2 = ((2 : Nat) ^ j) ^ 2 * 4 from by ring,
          Nat.mul_div_cancel _ (by norm_num : 0 < 4)]
      by_cases ht : (p * (2 * e) + e ^ 2) % U32M ≤ N - p ^ 2
      · rw [sqrtLoop_step_yes _ _ _ hone0 ht]
        rw [hm1] at ht
        have hop : (N - p ^ 2 + U32M - (p * (2 * e) + e ^ 2) % U32M) % U32M
            = N - (p + e) ^ 2 := by
          rw [hm1]
          simp only [U32M]
          omega
        have hres : (p * (2 * e) + 2 * e ^ 2 % U32M) % U32M / 2 = (p + e) * (2 * 2 ^ j) := by
          have he2sq : e ^ 2 ≤ 32768 ^ 2 := Nat.pow_le_pow_left he16b 2
          norm_num at he2sq
          have hr1 : 2 * e ^ 2 % U32M = 2 * e ^ 2 :=
            Nat.mod_eq_of_lt (by simp only [U32M]; omega)
          rw [hr1, show p * (2 * e) + 2 * e ^ 2 = (p + e) * e * 2 from by ring]
          have hz : (p + e) * e ≤ 65535 * 32768 := Nat.mul_le_mul hpe1 he16b
          norm_num at hz
          have hr3 : (p + e) * e * 2 % U32M = (p + e) * e * 2 :=
            Nat.mod_eq_of_lt (by simp only [U32M]; omega)
          rw [hr3, Nat.mul_div_cancel _ (by norm_num : 0 < 2), he2]
        rw [hop, hres, hone4]
        have hdvd' : (p + e) % (2 * 2 ^ j) = 0 := by
          rw [← he2]
          have hep : e ∣ p := dvd_trans ⟨2, by ring⟩ hdp
          obtain ⟨c, hc⟩ := Nat.dvd_add hep (dvd_refl e)
          rw [hc]
          exact Nat.mul_mod_right e c
        have hple' : (p + e) ^ 2 ≤ N := by omega
        have hlt' : N < (p + e + 2 * 2 ^ j) ^ 2 := by
          rw [show p + e + 2 * 2 ^ j = p + 2 * e from by omega]
          exact hlt
        exact ih (p + e) (2 ^ j) rfl (by omega) hdvd' hple' hlt'
      · rw [sqrtLoop_step_no _ _ _ hone0 ht]
        rw [hm1] at ht
        push_neg at ht
        have hres : p * (2 * e) / 2 = p * (2 * 2 ^ j) := by
          rw [show p * (2 * e) = p * (2 * 2 ^ j) * 2 from by rw [he2]; ring,
            Nat.mul_div_cancel _ (by norm_num : 0 < 2)]
        rw [hres, hone4]
        have hdvd' : p % (2 * 2 ^ j) = 0 := by
          rw [← he2]
          have hep : e ∣ p := dvd_trans ⟨2, by ring⟩ hdp
          obtain ⟨c, hc⟩ := hep
          rw [hc]
          exact Nat.mul_mod_right e c
        have hlt' : N < (p + 2 * 2 ^ j) ^ 2 := by
          rw [show p + 2 * 2 ^ j = p + e from by omega]
          omega
        exact ih p (2 ^ j) rfl (by omega) hdvd' hple hlt'

/-- C2 (amended): for every 32-bit `n ≥ 1`, `r = SquareRootRounded n` is the
arithmetically rounded square root (ties round up): `r ≥ 1`, `r² ≤ n + r` and
`(r-1)² < n`; and the documented values `f(2)=1, f(3)=2, f(4)=2, f(6)=2,
f(7)=3, f(8)=3, f(9)=3` are reproduced exactly.  At `n = 0` the general
property fails (`r = 0` and `(r-1)² < 0` is false), see the
counterexample. -/
theorem SquareRootRounded_correct :
    (∀ n : Nat, 1 ≤ n → n < 2 ^ 32 →
       1 ≤ SquareRootRounded n ∧
       SquareRootRounded n ^ 2 ≤ n + SquareRootRounded n ∧
       (SquareRootRounded n - 1) ^ 2 < n) ∧
    SquareRootRounded 2 = 1 ∧ SquareRootRounded 3 = 2 ∧ SquareRootRounded 4 = 2 ∧
    SquareRootRounded 6 = 2 ∧ SquareRootRounded 7 = 3 ∧ SquareRootRounded 8 = 3 ∧
    SquareRootRounded 9 = 3 := by
  constructor
  · intro n h1 h32
    norm_num at h32
    have h4 : n < 4 ^ (15 + 1) := by
      rw [show (4 : Nat) ^ (15 + 1) = 4294967296 from by norm_num]
      omega
    obtain ⟨k, hk, heq, hle, hlt⟩ := shrinkOne_spec n 15 h1 h4
    have hpow : ((2 : Nat) ^ k) ^ 2 = 4 ^ k := by
      rw [← pow_mul, show (4 : Nat) = 2 ^ 2 from by norm_num, ← pow_mul, Nat.mul_comm]
    have hb : n < (0 + 2 * 2 ^ k) ^ 2 := by
      rw [Nat.zero_add, mul_pow, hpow, show (2 : Nat) ^ 2 = 4 from by norm_num,
        show (4 : Nat) * 4 ^ k = 4 ^ (k + 1) from by rw [pow_succ, Nat.mul_comm]]
      exact hlt
    obtain ⟨q, hq, hq1, hq2⟩ :=
      sqrtLoop_spec n (by simp only [U32M]; omega) k 0 (2 ^ k) rfl hk
        (by simp) (by simp) hb
    rw [show n - 0 ^ 2 = n from by simp, show 0 * (2 * 2 ^ k) = 0 from by simp,
      hpow] at hq
    unfold SquareRootRounded
    rw [show (2 : Nat) ^ 30 = 4 ^ 15 from by norm_num, heq]
    dsimp only
    rw [hq]
    dsimp only
    by_cases hcond : q < n - q ^ 2
    · rw [if_pos hcond]
      refine ⟨by omega, ?_, ?_⟩
      · have e1 : (q + 1) ^ 2 = q ^ 2 + 2 * q + 1 := by ring
        omega
      · rw [show q + 1 - 1 = q from by omega]
        omega
    · rw [if_neg hcond]
      push_neg at hcond
      have hqpos : 1 ≤ q := by
        by_contra hq0
        push_neg at hq0
        have hz : q = 0 := by omega
        rw [hz, show (0 + 1 : Nat) ^ 2 = 1 from by norm_num] at hq2
        omega
      refine ⟨hqpos, by omega, ?_⟩
      have e3 : (q - 1) ^ 2 < q ^ 2 :=
        Nat.pow_lt_pow_left (by omega) (by norm_num)
      omega
  · refine ⟨?_, ?_, ?_, ?_, ?_, ?_, ?_⟩ <;>
      simp [SquareRootRounded, shrinkOne, sqrtLoop, U32M]

theorem SquareRootRounded_correct_witness :
    1 ≤ 5 ∧ 5 < 2 ^ 32 ∧
    (1 ≤ SquareRootRounded 5 ∧
     SquareRootRounded 5 ^ 2 ≤ 5 + SquareRootRounded 5 ∧
     (SquareRootRounded 5 - 1) ^ 2 < 5) :=
  ⟨by norm_num, by norm_num, SquareRootRounded_correct.1 5 (by norm_num) (by norm_num)⟩

/-- C2 counterexample: at `n = 0` the claimed general property fails:
`SquareRootRounded 0 = 0`, and `(r - 1)² < n` is false there (over the
integers `(0 - 1)² = 1 ≮ 0`, and over `Nat` `(0 - 1)² = 0 ≮ 0`). -/
theorem SquareRootRounded_zero_counterexample :
    SquareRootRounded 0 = 0 ∧
    ¬((SquareRootRounded 0 : Int) - 1) ^ 2 < (0 : Int) ∧
    ¬(SquareRootRounded 0 - 1) ^ 2 < 0 := by
  have h0 : SquareRootRounded 0 = 0 := by
    simp [SquareRootRounded, shrinkOne, sqrtLoop, U32M]
  refine ⟨h0, ?_, ?_⟩
  · rw [h0]
    norm_num
  · rw [h0]
    norm_num

/-- Settings (physical units) used to exhibit the Off-to-On clamp violation:
a tiny redistribution factor (`capacitance_uF = 2^20`,
`kOutputCap_uF = 2^20 - 1`, so `outputcap_scale_factor = 1`) and
`kDiscretize = 1` so the hysteresis decision fires on the first call. -/
def c1InitSettings : VirtCapNoFpSettings :=
  { upper_threshold_voltage := 300, lower_threshold_voltage := 200,
    kMaxCapVoltage := 1000, kMinCapVoltage := 100, kInitCapVoltage := 500,
    kDcoutputVoltage := 0, kLeakageCurrent := 0, kOnTimeLeakageCurrent := 0,
    capacitance_uF := 1048576, kOutputCap_uF := 1048575,
    kConverterEfficiency := 0, sample_period_us := 0, kDiscretize := 1 }

/-- The state produced by `virtcap_init c1InitSettings 0`. -/
def c1State : VirtcapState :=
  { settings :=
      { upper_threshold_voltage := 78643200, lower_threshold_voltage := 52428800,
        kMaxCapVoltage := 262144000, kMinCapVoltage := 26214400,
        kInitCapVoltage := 131072000, kDcoutputVoltage := 0,
        kLeakageCurrent := 0, kOnTimeLeakageCurrent := 0,
        capacitance_uF := 1048576, kOutputCap_uF := 1048575,
        kConverterEfficiency := 0, sample_period_us := 0, kDiscretize := 1 }
    callback_ref := 0, kScaleInput := 102911, outputcap_scale_factor := 1,
    cap_voltage := 131072000, is_outputting := false, is_enabled := false,
    discretize_cntr := 0 }

lemma c1_init_eq : virtcap_init c1InitSettings 0 = some c1State := by
  have hs : SquareRootRounded 1 = 1 := by
    simp [SquareRootRounded, shrinkOne, sqrtLoop, U32M]
  simp [virtcap_init, c1InitSettings, c1State, voltage_mv_to_logic,
    current_ua_to_logic, U32M, hs]

/-- C1 counterexample: starting from `virtcap_init c1InitSettings`, the very
first `virtcap_update` call performs the Off-to-On transition and commits
`cap_voltage = 128000 < kMinCapVoltage = 26214400`: the clamp invariant does
not survive the charge-redistribution step. -/
theorem virtcap_cap_voltage_clamp_counterexample :
    virtcap_init c1InitSettings 0 = some c1State ∧
    virtcap_update c1State 0 0 0 0 =
      some ({ c1State with cap_voltage := 128000, is_outputting := true,
                           discretize_cntr := 0 }, [true]) ∧
    ({ c1State with cap_voltage := 128000, is_outputting := true,
                    discretize_cntr := 0 } : VirtcapState).cap_voltage
      < c1State.settings.kMinCapVoltage :=
  ⟨c1_init_eq, by decide, by decide⟩

/-- Settings identical to `c1InitSettings` except `kDiscretize = 0`, for the
counter-invariant counterexample. -/
def c8InitSettings : VirtCapNoFpSettings :=
  { c1InitSettings with kDiscretize := 0 }

/-- The state produced by `virtcap_init c8InitSettings 0`. -/
def c8State : VirtcapState :=
  { c1State with settings := { c1State.settings with kDiscretize := 0 } }

lemma c8_init_eq : virtcap_init c8InitSettings 0 = some c8State := by
  have hs : SquareRootRounded 1 = 1 := by
    simp [SquareRootRounded, shrinkOne, sqrtLoop, U32M]
  simp [virtcap_init, c8InitSettings, c1InitSettings, c8State, c1State,
    voltage_mv_to_logic, current_ua_to_logic, U32M, hs]

/-- C8 counterexample: with `kDiscretize = 0` (an admissible `uint32_t`
settings value) the claimed invariant `0 ≤ discretize_cntr < kDiscretize` is
already false immediately after `virtcap_init`: the counter is 0 and
`0 < 0` fails. -/
theorem virtcap_discretize_cntr_counterexample :
    virtcap_init c8InitSettings 0 = some c8State ∧
    ¬c8State.discretize_cntr < c8State.settings.kDiscretize :=
  ⟨c8_init_eq, by decide⟩

/-- Settings with `capacitance_uF = 2^30`, so that
`100 * capacitance_uF ≡ 0 (mod 2^32)`: `virtcap_init` succeeds but the
charge-integration division of every update divides by zero. -/
def c10InitSettings : VirtCapNoFpSettings :=
  { upper_threshold_voltage := 0, lower_threshold_voltage := 0,
    kMaxCapVoltage := 0, kMinCapVoltage := 0, kInitCapVoltage := 1,
    kDcoutputVoltage := 0, kLeakageCurrent := 0, kOnTimeLeakageCurrent := 0,
    capacitance_uF := 1073741824, kOutputCap_uF := 0,
    kConverterEfficiency := 0, sample_period_us := 0, kDiscretize := 1 }

/-- The state produced by `virtcap_init c10InitSettings 0`. -/
def c10State : VirtcapState :=
  { settings :=
      { upper_threshold_voltage := 0, lower_threshold_voltage := 0,
        kMaxCapVoltage := 0, kMinCapVoltage := 0, kInitCapVoltage := 262144,
        kDcoutputVoltage := 0, kLeakageCurrent := 0, kOnTimeLeakageCurrent := 0,
        capacitance_uF := 1073741824, kOutputCap_uF := 0,
        kConverterEfficiency := 0, sample_period_us := 0, kDiscretize := 1 }
    callback_ref := 0, kScaleInput := 102911, outputcap_scale_factor := 0,
    cap_voltage := 262144, is_outputting := false, is_enabled := false,
    discretize_cntr := 0 }

lemma c10_init_eq : virtcap_init c10InitSettings 0 = some c10State := by
  have hs : SquareRootRounded 0 = 0 := by
    simp [SquareRootRounded, shrinkOne, sqrtLoop, U32M]
  simp [virtcap_init, c10InitSettings, c10State, voltage_mv_to_logic,
    current_ua_to_logic, U32M, hs]

/-- C10 counterexample: the state reached by `virtcap_init c10InitSettings`
has `cap_voltage = 262144 ≥ 2^13`, yet `virtcap_update` still reaches a
division by zero (`none`), because the third division of the update — by
`100 * capacitance_uF` in `uint32_t`, absent from the claim — has divisor
`100 * 2^30 mod 2^32 = 0`. -/
theorem virtcap_update_divisors_counterexample :
    virtcap_init c10InitSettings 0 = some c10State ∧
    2 ^ 13 ≤ c10State.cap_voltage ∧
    virtcap_update c10State 0 0 0 0 = none :=
  ⟨c10_init_eq, by decide, by decide⟩
